import Mathlib

/-!
Verification of the two generator scripts of the flash-attention3-wheels
repository: `scripts/generate_matrix.py` (CI build-matrix generation) and
`scripts/generate_pages.py` (static wheel-index page generation).

The Python code is embedded shallowly: dictionaries become insertion-ordered
association lists or lookup functions, the wheel-filename regular expression
becomes an explicit backtracking matcher with Python `re` semantics, and the
fatal `assert` of the matrix generator becomes an `Option` result where
`none` models the aborted run.
-/

namespace GenerateMatrix

/-- One step of the `latest` dictionary loop of `generate_matrix.py`:
`if key not in latest or patch > latest[key][1]: latest[key] = (major_minor, patch)`.
The dictionary is embedded as a lookup function `String → Option (String × Nat)`. -/
def latestStep (acc : String → Option (String × Nat)) (e : String × Nat) :
    String → Option (String × Nat) :=
  fun k =>
    if e.1 = k then
      match acc e.1 with
      | none => some e
      | some v => if e.2 > v.2 then some e else some v
    else acc k

/-- The `latest` map of `generate_matrix.py`, built by folding the matched
`(major_minor, patch)` pairs through the update loop. -/
def latest (ms : List (String × Nat)) : String → Option (String × Nat) :=
  ms.foldl latestStep (fun _ => none)

/-- The maximum patch number among entries of `ms` whose key is `k`
(`none` when there is no such entry).  Specification-side helper used to
characterise `latest`. -/
def maxPatch : List (String × Nat) → String → Option Nat
  | [], _ => none
  | e :: ms, k =>
    if e.1 = k then
      match maxPatch ms k with
      | none => some e.2
      | some m => some (max e.2 m)
    else maxPatch ms k

/-- How one stored value and a best-patch candidate combine in `latest`. -/
def latestCombine : Option (String × Nat) → String → Option Nat →
    Option (String × Nat)
  | a, _, none => a
  | none, k, some m => some (k, m)
  | some v, k, some m => if m > v.2 then some (k, m) else some v

lemma foldl_latestStep_eq (ms : List (String × Nat)) :
    ∀ (acc : String → Option (String × Nat)) (k : String),
      (ms.foldl latestStep acc) k = latestCombine (acc k) k (maxPatch ms k) := by
  induction ms with
  | nil => intro acc k; simp [latestCombine, maxPatch]
  | cons e tl ih =>
    intro acc k
    rw [List.foldl_cons, ih]
    by_cases he : e.1 = k
    · have he2 : e = (k, e.2) := by rw [← he]
      have hstep : latestStep acc e k = latestCombine (acc k) k (some e.2) := by
        simp only [latestStep]
        rw [if_pos he, he]
        rcases hacc : acc k with _ | v
        · simp only [latestCombine]
          exact congrArg some he2
        · simp only [latestCombine]
          by_cases h1 : e.2 > v.2
          · rw [if_pos h1, if_pos h1]
            exact congrArg some he2
          · rw [if_neg h1, if_neg h1]
      rw [hstep]
      rcases hacc : acc k with _ | v <;> rcases htl : maxPatch tl k with _ | m
      · have hmax : maxPatch (e :: tl) k = some e.2 := by
          simp only [maxPatch]
          rw [if_pos he, htl]
        rw [hmax]
        simp [latestCombine]
      · have hmax : maxPatch (e :: tl) k = some (max e.2 m) := by
          simp only [maxPatch]
          rw [if_pos he, htl]
        rw [hmax]
        simp only [latestCombine]
        rcases Nat.le_total e.2 m with hm | hm
        · rw [max_eq_right hm]
          by_cases h2 : m > e.2
          · rw [if_pos h2]
          · rw [if_neg h2]
            have hem : e.2 = m := by omega
            rw [hem]
        · rw [max_eq_left hm, if_neg (by omega : ¬ m > e.2)]
      · have hmax : maxPatch (e :: tl) k = some e.2 := by
          simp only [maxPatch]
          rw [if_pos he, htl]
        rw [hmax]
        simp [latestCombine]
      · have hmax : maxPatch (e :: tl) k = some (max e.2 m) := by
          simp only [maxPatch]
          rw [if_pos he, htl]
        rw [hmax]
        simp only [latestCombine]
        rcases Nat.le_total e.2 m with hm | hm
        · rw [max_eq_right hm]
          by_cases h1 : e.2 > v.2
          · rw [if_pos h1]
            simp only [latestCombine]
            by_cases h2 : m > e.2
            · rw [if_pos h2, if_pos (by omega : m > v.2)]
            · have hem : e.2 = m := by omega
              rw [if_neg h2, if_pos (by omega : m > v.2), hem]
          · rw [if_neg h1]
        · rw [max_eq_left hm]
          by_cases h1 : e.2 > v.2
          · rw [if_pos h1]
            simp only [latestCombine]
            rw [if_neg (by omega : ¬ m > e.2)]
          · rw [if_neg h1]
            simp only [latestCombine]
            rw [if_neg (by omega : ¬ m > v.2)]
    · have hstep : latestStep acc e k = acc k := by
        simp only [latestStep]
        rw [if_neg he]
      have hmax : maxPatch (e :: tl) k = maxPatch tl k := by
        simp only [maxPatch]
        rw [if_neg he]
      rw [hstep, hmax]

lemma latest_eq_maxPatch (ms : List (String × Nat)) (k : String) :
    latest ms k = (maxPatch ms k).map (fun m => (k, m)) := by
  have h := foldl_latestStep_eq ms (fun _ => none) k
  rcases hm : maxPatch ms k with _ | m <;>
    simp [latest, hm, latestCombine] at h ⊢ <;> exact h

lemma maxPatch_eq_none_iff (ms : List (String × Nat)) (k : String) :
    maxPatch ms k = none ↔ ∀ e ∈ ms, e.1 ≠ k := by
  induction ms with
  | nil => simp [maxPatch]
  | cons e tl ih =>
    by_cases he : e.1 = k
    · simp only [maxPatch, if_pos he]
      rcases htl : maxPatch tl k with _ | m
      · simp [he]
      · simp [he]
    · simp only [maxPatch, if_neg he]
      simp [List.forall_mem_cons, he, ih]

lemma maxPatch_spec (ms : List (String × Nat)) (k : String) (m : Nat)
    (h : maxPatch ms k = some m) :
    (k, m) ∈ ms ∧ ∀ e ∈ ms, e.1 = k → e.2 ≤ m := by
  induction ms generalizing m with
  | nil => simp [maxPatch] at h
  | cons e tl ih =>
    by_cases he : e.1 = k
    · have he2 : e = (k, e.2) := by rw [← he]
      simp only [maxPatch] at h
      rw [if_pos he] at h
      rcases htl : maxPatch tl k with _ | m'
      · rw [htl] at h
        have hm : m = e.2 := by simpa using h.symm
        subst hm
        refine ⟨by rw [← he2]; exact List.mem_cons_self e tl, ?_⟩
        intro x hx hk
        rcases List.mem_cons.mp hx with h1 | h1
        · subst h1; exact le_refl _
        · exact absurd hk ((maxPatch_eq_none_iff tl k).mp htl x h1)
      · rw [htl] at h
        have hm : m = max e.2 m' := by simpa using h.symm
        subst hm
        obtain ⟨hmem', hub'⟩ := ih m' htl
        constructor
        · rcases Nat.le_total e.2 m' with h1 | h1
          · rw [max_eq_right h1]
            exact List.mem_cons_of_mem _ hmem'
          · rw [max_eq_left h1, ← he2]
            exact List.mem_cons_self e tl
        · intro x hx hk
          rcases List.mem_cons.mp hx with h1 | h1
          · subst h1; exact le_max_left _ _
          · exact le_trans (hub' x h1 hk) (le_max_right _ _)
    · simp only [maxPatch] at h
      rw [if_neg he] at h
      obtain ⟨hmem', hub'⟩ := ih m h
      refine ⟨List.mem_cons_of_mem _ hmem', ?_⟩
      intro x hx hk
      rcases List.mem_cons.mp hx with h1 | h1
      · subst h1; exact absurd hk he
      · exact hub' x h1 hk

lemma maxPatch_eq_some (ms : List (String × Nat)) (k : String) (m : Nat)
    (hmem : (k, m) ∈ ms) (hub : ∀ e ∈ ms, e.1 = k → e.2 ≤ m) :
    maxPatch ms k = some m := by
  rcases h : maxPatch ms k with _ | m'
  · exact absurd rfl ((maxPatch_eq_none_iff ms k).mp h (k, m) hmem)
  · obtain ⟨hmem', hub'⟩ := maxPatch_spec ms k m' h
    have h1 : m' ≤ m := hub (k, m') hmem' rfl
    have h2 : m ≤ m' := hub' (k, m) hmem rfl
    rw [Nat.le_antisymm h2 h1]

lemma latest_eq_none_iff (ms : List (String × Nat)) (k : String) :
    latest ms k = none ↔ ∀ e ∈ ms, e.1 ≠ k := by
  rw [latest_eq_maxPatch, Option.map_eq_none', maxPatch_eq_none_iff]

lemma latest_eq_some_iff (ms : List (String × Nat)) (k : String)
    (v : String × Nat) :
    latest ms k = some v ↔
      (v.1 = k ∧ v ∈ ms ∧ ∀ e ∈ ms, e.1 = k → e.2 ≤ v.2) := by
  rw [latest_eq_maxPatch]
  constructor
  · intro h
    rw [Option.map_eq_some'] at h
    obtain ⟨m, hm, hv⟩ := h
    obtain ⟨hmem, hub⟩ := maxPatch_spec ms k m hm
    subst hv
    exact ⟨rfl, hmem, hub⟩
  · rintro ⟨hv1, hmem, hub⟩
    have hveq : v = (k, v.2) := by rw [← hv1]
    have hmp : maxPatch ms k = some v.2 :=
      maxPatch_eq_some ms k v.2 (hveq ▸ hmem) hub
    rw [hmp, Option.map_some', ← hveq]

/-- C2 (part): permuting the matched tag list does not change the `latest` map. -/
lemma latest_perm (ms ms' : List (String × Nat)) (h : ms.Perm ms')
    (k : String) : latest ms k = latest ms' k := by
  rcases hm : latest ms k with _ | v
  · symm
    rw [latest_eq_none_iff] at hm ⊢
    intro e he
    exact hm e (h.symm.subset he)
  · rw [latest_eq_some_iff] at hm
    obtain ⟨hv1, hmem, hub⟩ := hm
    symm
    rw [latest_eq_some_iff]
    exact ⟨hv1, h.subset hmem, fun e he hk => hub e (h.symm.subset he) hk⟩

/-- C2: over any list of matched `(major.minor, patch)` pairs, `latest` keeps,
for each key, exactly an entry of that key carrying the highest patch number;
it is idempotent, permutation-independent, and when a later entry ties the
current best patch the kept value equals that later-seen entry. -/
theorem latest_keeps_highest_patch (ms : List (String × Nat)) (k : String) :
    (latest ms k = none ↔ ∀ e ∈ ms, e.1 ≠ k)
    ∧ (∀ v, latest ms k = some v ↔
        (v.1 = k ∧ v ∈ ms ∧ ∀ e ∈ ms, e.1 = k → e.2 ≤ v.2))
    ∧ (∀ ms', ms.Perm ms' → latest ms k = latest ms' k)
    ∧ latest (ms.filterMap fun e => latest ms e.1) k = latest ms k
    ∧ (∀ p, (∀ e ∈ ms, e.1 = k → e.2 ≤ p) →
        latest (ms ++ [(k, p)]) k = some (k, p)) := by
  refine ⟨latest_eq_none_iff ms k, latest_eq_some_iff ms k,
    fun ms' h => latest_perm ms ms' h k, ?_, ?_⟩
  · rcases hm : latest ms k with _ | v
    · rw [latest_eq_none_iff] at hm ⊢
      intro x hx
      rw [List.mem_filterMap] at hx
      obtain ⟨e, he, hfe⟩ := hx
      rw [latest_eq_some_iff] at hfe
      intro hxk
      refine hm e he ?_
      rw [← hfe.1]
      exact hxk
    · rw [latest_eq_some_iff] at hm ⊢
      obtain ⟨hv1, hmem, hub⟩ := hm
      have hveq : v = (k, v.2) := by rw [← hv1]
      refine ⟨hv1, ?_, ?_⟩
      · rw [List.mem_filterMap]
        refine ⟨v, hmem, ?_⟩
        rw [hv1, latest_eq_some_iff]
        exact ⟨hv1, hmem, hub⟩
      · intro x hx hxk
        rw [List.mem_filterMap] at hx
        obtain ⟨e, he, hfe⟩ := hx
        rw [latest_eq_some_iff] at hfe
        obtain ⟨hx1, hxmem, hxub⟩ := hfe
        have h1 : x.2 ≤ v.2 := hub x hxmem hxk
        exact h1
  · intro p hub
    rw [latest_eq_some_iff]
    refine ⟨rfl, List.mem_append_right _ (List.mem_singleton_self _), ?_⟩
    intro e he hk
    rcases List.mem_append.mp he with h1 | h1
    · exact hub e h1 hk
    · rw [List.mem_singleton] at h1
      subst h1
      exact le_refl _

/-- Witness for C2 at the spec example: tags 12.4.1 and 12.4.0 reduce to
patch 1 for key "12.4". -/
theorem latest_keeps_highest_patch_witness :
    latest [("12.4", 1), ("12.4", 0)] "12.4" = some ("12.4", 1) :=
  ((latest_keeps_highest_patch [("12.4", 1), ("12.4", 0)] "12.4").2.1
      ("12.4", 1)).mpr
    ⟨rfl, by decide, by decide⟩

/-- Python whitespace test used by `str.strip`. -/
def isPySpace (c : Char) : Bool :=
  c = ' ' || c = '\t' || c = '\n' || c = '\x0d' || c = '\x0b' || c = '\x0c'

/-- Python `str.strip()`, embedded structurally over the character list. -/
def pyStrip (s : String) : String :=
  String.mk (((s.toList.dropWhile isPySpace).reverse.dropWhile isPySpace).reverse)

/-- Split a character list at every occurrence of the separator character,
keeping empty segments, like Python `str.split(sep)`. -/
def splitChar (c : Char) : List Char → List (List Char)
  | [] => [[]]
  | x :: xs =>
    if x = c then [] :: splitChar c xs
    else
      match splitChar c xs with
      | [] => [[x]]
      | y :: ys => (x :: y) :: ys

/-- Decimal digit-string to number, the behaviour of Python `int` on the
all-digit version components fed to it by `ver2tuple`. -/
def digitsToNat (cs : List Char) : Nat :=
  cs.foldl (fun n c => n * 10 + (c.toNat - '0'.toNat)) 0

/-- Function `ver2tuple` of `generate_matrix.py`: split a version string on "." and
turn each component into an integer. -/
def ver2tuple (v : String) : List Nat :=
  (splitChar '.' v.toList).map digitsToNat

/-- Python `<` on integer tuples: lexicographic, a strict prefix is smaller. -/
def tupleLt : List Nat → List Nat → Bool
  | [], [] => false
  | [], _ :: _ => true
  | _ :: _, [] => false
  | a :: as, b :: bs => decide (a < b) || (decide (a = b) && tupleLt as bs)

/-- Python `torch.rsplit(".", 1)[0]`: everything before the last dot (the whole
string when there is no dot). -/
def joinDots : List (List Char) → List Char
  | [] => []
  | [x] => x
  | x :: xs => x ++ '.' :: joinDots xs

def torch_major (torch : String) : String :=
  match splitChar '.' torch.toList with
  | [] => torch
  | [_] => torch
  | ps => String.mk (joinDots ps.dropLast)

/-- The exclusion table of `generate_matrix.py`. -/
def BLACKLIST : String → Option String :=
  fun s => if s = "2.8" then some "12.9" else none

/-- One emitted element of `matrix["include"]`. -/
structure MatrixEntry where
  cuda : String
  cuda_full : String
  torch : String
deriving DecidableEq

/-- Effectful traversal: the outer `for cuda in cuda_versions` loop aborts at
the first failed assertion, modelled by `none`. -/
def mapOpt {α β : Type} (f : α → Option β) : List α → Option (List β)
  | [] => some []
  | a :: l =>
    match f a with
    | none => none
    | some b => (mapOpt f l).map (fun bs => b :: bs)

/-- One iteration of the outer loop of `generate_matrix.py`: strip the CUDA
version, assert it is a key of the full-version map, then cross it with the
framework versions subject to the exclusion table. -/
def genRow (blacklist cfm : String → Option String)
    (torch_versions : List String) (cuda0 : String) :
    Option (List MatrixEntry) :=
  match cfm (pyStrip cuda0) with
  | none => none
  | some cuda_full =>
    some (torch_versions.filterMap fun torch =>
      match blacklist (torch_major torch) with
      | some max_cuda =>
        if tupleLt (ver2tuple max_cuda) (ver2tuple (pyStrip cuda0)) then none
        else some ⟨pyStrip cuda0, cuda_full, pyStrip torch⟩
      | none => some ⟨pyStrip cuda0, cuda_full, pyStrip torch⟩)

/-- The matrix construction of `generate_matrix.py` (`matrix["include"]`),
`none` when the `assert cuda in cuda_full_map` aborts the script. -/
def genMatrix (blacklist cfm : String → Option String)
    (cuda_versions torch_versions : List String) :
    Option (List MatrixEntry) :=
  (mapOpt (genRow blacklist cfm torch_versions) cuda_versions).map List.flatten

/-- The comprehension building `cuda_full_map` from the entries of `latest`. -/
def cuda_full_map (ms : List (String × Nat)) : String → Option String :=
  fun k => (latest ms k).map (fun v => k ++ "." ++ toString v.2)

lemma mapOpt_eq_none_iff {α β : Type} (f : α → Option β) (l : List α) :
    mapOpt f l = none ↔ ∃ a ∈ l, f a = none := by
  induction l with
  | nil => simp [mapOpt]
  | cons a l ih =>
    simp only [mapOpt]
    rcases hfa : f a with _ | b
    · constructor
      · intro _
        exact ⟨a, List.mem_cons_self a l, hfa⟩
      · intro _
        rfl
    · constructor
      · intro h
        have h0 : mapOpt f l = none := Option.map_eq_none'.mp h
        obtain ⟨x, hx, hfx⟩ := ih.mp h0
        exact ⟨x, List.mem_cons_of_mem _ hx, hfx⟩
      · rintro ⟨x, hx, hfx⟩
        rcases List.mem_cons.mp hx with h1 | h1
        · subst h1
          rw [hfx] at hfa
          exact absurd hfa (by simp)
        · have h0 : mapOpt f l = none := ih.mpr ⟨x, h1, hfx⟩
          rw [h0]
          rfl

lemma mapOpt_mem {α β : Type} (f : α → Option β) (l : List α)
    (bs : List β) (h : mapOpt f l = some bs) :
    ∀ b ∈ bs, ∃ a ∈ l, f a = some b := by
  induction l generalizing bs with
  | nil =>
    simp only [mapOpt, Option.some.injEq] at h
    subst h
    intro b hb
    exact absurd hb (List.not_mem_nil b)
  | cons a l ih =>
    simp only [mapOpt] at h
    rcases hfa : f a with _ | b0
    · rw [hfa] at h; exact absurd h (by simp)
    · rw [hfa] at h
      rcases hml : mapOpt f l with _ | bs0
      · rw [hml] at h; exact absurd h (by simp)
      · rw [hml] at h
        simp only [Option.map_some', Option.some.injEq] at h
        subst h
        intro b hb
        rcases List.mem_cons.mp hb with h1 | h1
        · exact ⟨a, List.mem_cons_self a l, h1 ▸ hfa⟩
        · obtain ⟨a', ha', hfa'⟩ := ih bs0 hml b h1
          exact ⟨a', List.mem_cons_of_mem _ ha', hfa'⟩

/-- C3: no emitted matrix entry exceeds the CUDA ceiling of its framework
version's exclusion-table row, CUDA versions being compared as integer
tuples; and in the spec's example only the 12.8 and 12.9 pairs survive. -/
theorem matrix_respects_blacklist_ceiling :
    (∀ (blacklist cfm : String → Option String)
        (cudas torchs : List String) (m : List MatrixEntry),
      (∀ t ∈ torchs, pyStrip t = t) →
      genMatrix blacklist cfm cudas torchs = some m →
      ∀ e ∈ m, ∀ max_cuda, blacklist (torch_major e.torch) = some max_cuda →
        tupleLt (ver2tuple max_cuda) (ver2tuple e.cuda) = false)
    ∧ genMatrix BLACKLIST (fun k => some k) ["12.8", "12.9", "13.0"] ["2.8.0"]
      = some [⟨"12.8", "12.8", "2.8.0"⟩, ⟨"12.9", "12.9", "2.8.0"⟩] := by
  constructor
  · intro blacklist cfm cudas torchs m ht hgen e he mc hbl
    simp only [genMatrix] at hgen
    obtain ⟨rows, hrows, hm⟩ := Option.map_eq_some'.mp hgen
    subst hm
    obtain ⟨row, hrowmem, herow⟩ := List.mem_flatten.mp he
    obtain ⟨c, hc, hgenrow⟩ := mapOpt_mem _ cudas rows hrows row hrowmem
    simp only [genRow] at hgenrow
    rcases hcfm : cfm (pyStrip c) with _ | full
    · rw [hcfm] at hgenrow
      exact absurd hgenrow (by simp)
    · rw [hcfm] at hgenrow
      simp only [Option.some.injEq] at hgenrow
      subst hgenrow
      obtain ⟨t, htmem, hgt⟩ := List.mem_filterMap.mp herow
      split at hgt
      · rename_i mc' hb
        split at hgt
        · exact absurd hgt (by simp)
        · rename_i hcond
          simp only [Option.some.injEq] at hgt
          have hetorch : e.torch = pyStrip t := by rw [← hgt]
          have hecuda : e.cuda = pyStrip c := by rw [← hgt]
          rw [hetorch, ht t htmem, hb] at hbl
          have hmc : mc' = mc := by simpa using hbl
          rw [hecuda, ← hmc]
          cases h' : tupleLt (ver2tuple mc') (ver2tuple (pyStrip c))
          · rfl
          · exact absurd h' hcond
      · rename_i hb
        simp only [Option.some.injEq] at hgt
        have hetorch : e.torch = pyStrip t := by rw [← hgt]
        rw [hetorch, ht t htmem, hb] at hbl
        exact absurd hbl (by simp)
  · decide

/-- Witness for C3: the surviving 12.8 entry of the example indeed satisfies
the 12.9 ceiling. -/
theorem matrix_respects_blacklist_ceiling_witness :
    tupleLt (ver2tuple "12.9") (ver2tuple "12.8") = false :=
  matrix_respects_blacklist_ceiling.1 BLACKLIST (fun k => some k)
    ["12.8", "12.9", "13.0"] ["2.8.0"]
    [⟨"12.8", "12.8", "2.8.0"⟩, ⟨"12.9", "12.9", "2.8.0"⟩]
    (by decide)
    matrix_respects_blacklist_ceiling.2
    ⟨"12.8", "12.8", "2.8.0"⟩ (by decide)
    "12.9" (by decide)

lemma genRow_eq_none_iff (blacklist cfm : String → Option String)
    (torchs : List String) (c : String) :
    genRow blacklist cfm torchs c = none ↔ cfm (pyStrip c) = none := by
  simp only [genRow]
  rcases h : cfm (pyStrip c) with _ | full
  · simp
  · simp

/-- C4: the matrix generator aborts (assertion failure, modelled as `none`)
iff some requested CUDA version, after stripping, is absent as a key of the
map built from the fetched tags; when all are present a matrix is produced. -/
theorem genMatrix_abort_iff (blacklist : String → Option String)
    (ms : List (String × Nat)) (cudas torchs : List String) :
    (genMatrix blacklist (cuda_full_map ms) cudas torchs = none
      ↔ ∃ c ∈ cudas, cuda_full_map ms (pyStrip c) = none)
    ∧ ((∀ c ∈ cudas, cuda_full_map ms (pyStrip c) ≠ none) →
      ∃ m, genMatrix blacklist (cuda_full_map ms) cudas torchs = some m) := by
  have hiff : genMatrix blacklist (cuda_full_map ms) cudas torchs = none
      ↔ ∃ c ∈ cudas, cuda_full_map ms (pyStrip c) = none := by
    simp only [genMatrix, Option.map_eq_none', mapOpt_eq_none_iff]
    constructor
    · rintro ⟨c, hc, hrow⟩
      exact ⟨c, hc, (genRow_eq_none_iff _ _ _ _).mp hrow⟩
    · rintro ⟨c, hc, hcfm⟩
      exact ⟨c, hc, (genRow_eq_none_iff _ _ _ _).mpr hcfm⟩
  refine ⟨hiff, ?_⟩
  intro hall
  rcases hg : genMatrix blacklist (cuda_full_map ms) cudas torchs with _ | m
  · obtain ⟨c, hc, hnone⟩ := hiff.mp hg
    exact absurd hnone (hall c hc)
  · exact ⟨m, rfl⟩

/-- Witness for C4: with only CUDA 12.8 fetched, requesting 13.0 aborts. -/
theorem genMatrix_abort_iff_witness :
    genMatrix BLACKLIST (cuda_full_map [("12.8", 1)]) ["12.8", "13.0"]
      ["2.9.1"] = none :=
  (genMatrix_abort_iff BLACKLIST [("12.8", 1)] ["12.8", "13.0"] ["2.9.1"]).1.mpr
    ⟨"13.0", by decide, by decide⟩

end GenerateMatrix

namespace GeneratePages

/-!
Embedding of `WHEEL_RE` from `generate_pages.py`:

    flash_attn_3-(?P<base>\d+\.\d+\.\d+(?:[a-zA-Z]+\d*)?)
    [.+](?P<date>\d{8})
    [.+]cu(?P<cuda>\d{3})
    torch(?P<torch>\d{3})
    cxx11abi(?P<abi>true|false)
    [.+][a-f0-9]+
    -cp(?P<py>\d{2})-.+-(?P<platform>[a-z0-9_]+)\.whl

compiled with `re.I` and applied with `re.match` (anchored at the start of
the string only; trailing text after `.whl` is allowed).  The matcher below
implements the leftmost-greedy backtracking search of Python `re` for this
pattern: each greedy repetition tries its longest possible run first and
shortens on failure of the continuation, alternatives are tried left to
right, and letters in literals and character classes match case-insensitively.
-/

/-- Case-insensitive character comparison (`re.I`). -/
def eqCI (p c : Char) : Bool := p.toLower == c.toLower

/-- Class `\d`. -/
def isDigitC (c : Char) : Bool := c.isDigit

/-- Class `[a-zA-Z]`. -/
def isAlphaC (c : Char) : Bool := c.isAlpha

/-- Class `[a-f0-9]` under `re.I`. -/
def isHexC (c : Char) : Bool :=
  c.isDigit || ('a' ≤ c.toLower && c.toLower ≤ 'f')

/-- Class `[a-z0-9_]` under `re.I`. -/
def isPlatformC (c : Char) : Bool :=
  c.isDigit || c.isAlpha || c == '_'

/-- Class `[.+]`. -/
def isDotPlus (c : Char) : Bool := c == '.' || c == '+'

/-- Class `.` (any character but a newline). -/
def isAnyC (c : Char) : Bool := c != '\n'

/-- Match a literal (case-insensitively), returning the consumed characters
and the rest. -/
def matchLit : List Char → List Char → Option (List Char × List Char)
  | [], s => some ([], s)
  | _ :: _, [] => none
  | p :: ps, c :: cs =>
    if eqCI p c then (matchLit ps cs).map (fun r => (c :: r.1, r.2)) else none

/-- Match exactly `n` characters of a class. -/
def matchCount (p : Char → Bool) : Nat → List Char → Option (List Char × List Char)
  | 0, s => some ([], s)
  | _ + 1, [] => none
  | n + 1, c :: cs =>
    if p c then (matchCount p n cs).map (fun r => (c :: r.1, r.2)) else none

/-- The splits a greedy `+` repetition of a character class tries, longest
first (a class repetition can only consume a prefix of the maximal run). -/
def plusSplits (p : Char → Bool) (s : List Char) : List (List Char × List Char) :=
  let n := (s.takeWhile p).length
  (List.range n).map (fun i => (s.take (n - i), s.drop (n - i)))

/-- The splits a greedy `*` repetition tries: as `+`, then the empty match. -/
def starSplits (p : Char → Bool) (s : List Char) : List (List Char × List Char) :=
  plusSplits p s ++ [([], s)]

/-- Backtracking driver: try each alternative in order, first success wins. -/
def firstSome {α β : Type} : List α → (α → Option β) → Option β
  | [], _ => none
  | x :: xs, f =>
    match f x with
    | some b => some b
    | none => firstSome xs f

/-- The capture groups of `WHEEL_RE`, as matched character lists. -/
structure WheelMatch where
  base : List Char
  date : List Char
  cuda : List Char
  torch : List Char
  abi : List Char
  py : List Char
  platform : List Char
deriving DecidableEq

/-- The pattern from `[.+](?P<date>\d{8})` onwards, entered with the
already-captured `base` group. -/
def matchAfterBase (base : List Char) (s : List Char) : Option WheelMatch :=
  (matchCount isDotPlus 1 s).bind fun r1 =>
  (matchCount isDigitC 8 r1.2).bind fun rdate =>
  (matchCount isDotPlus 1 rdate.2).bind fun r2 =>
  (matchLit "cu".toList r2.2).bind fun r3 =>
  (matchCount isDigitC 3 r3.2).bind fun rcuda =>
  (matchLit "torch".toList rcuda.2).bind fun r4 =>
  (matchCount isDigitC 3 r4.2).bind fun rtorch =>
  (matchLit "cxx11abi".toList rtorch.2).bind fun r5 =>
  (match matchLit "true".toList r5.2 with
   | some r => some r
   | none => matchLit "false".toList r5.2).bind fun rabi =>
  (matchCount isDotPlus 1 rabi.2).bind fun r6 =>
  firstSome (plusSplits isHexC r6.2) fun rhex =>
  (matchLit "-cp".toList rhex.2).bind fun r7 =>
  (matchCount isDigitC 2 r7.2).bind fun rpy =>
  (matchLit "-".toList rpy.2).bind fun r8 =>
  firstSome (plusSplits isAnyC r8.2) fun rmid =>
  (matchLit "-".toList rmid.2).bind fun r9 =>
  firstSome (plusSplits isPlatformC r9.2) fun rplat =>
  (matchLit ".whl".toList rplat.2).map fun _ =>
  ⟨base, rdate.1, rcuda.1, rtorch.1, rabi.1, rpy.1, rplat.1⟩

/-- Matcher for `WHEEL_RE.match`: anchored at the start, free at the end.  The base
group `\d+\.\d+\.\d+(?:[a-zA-Z]+\d*)?` backtracks over its three digit runs
and the optional pre-release suffix. -/
def matchWheel (s : List Char) : Option WheelMatch :=
  (matchLit "flash_attn_3-".toList s).bind fun r0 =>
  firstSome (plusSplits isDigitC r0.2) fun r1 =>
  (matchLit ".".toList r1.2).bind fun d1 =>
  firstSome (plusSplits isDigitC d1.2) fun r2 =>
  (matchLit ".".toList r2.2).bind fun d2 =>
  firstSome (plusSplits isDigitC d2.2) fun r3 =>
  (firstSome (plusSplits isAlphaC r3.2) fun r4 =>
    firstSome (starSplits isDigitC r4.2) fun r5 =>
      matchAfterBase
        (r1.1 ++ '.' :: r2.1 ++ '.' :: r3.1 ++ r4.1 ++ r5.1) r5.2).orElse
  fun _ =>
    matchAfterBase (r1.1 ++ '.' :: r2.1 ++ '.' :: r3.1) r3.2

/-- The dictionary built by `parse_wheel_info`. -/
structure WheelInfo where
  filename : String
  base_version : String
  build_date : String
  cuda_version : String
  torch_version : String
  cxx11_abi : String
  python_version : String
  platform : String
deriving DecidableEq

/-- Function `parse_wheel_info` of `generate_pages.py`: apply `WHEEL_RE.match` and
package the captures; the interpreter display version splits the capture as
`m['py'][0] "." m['py'][1:]`. -/
def parse_wheel_info (filename : String) : Option WheelInfo :=
  (matchWheel filename.toList).map fun m =>
    { filename := filename
      base_version := String.mk m.base
      build_date := String.mk m.date
      cuda_version := String.mk m.cuda
      torch_version := String.mk m.torch
      cxx11_abi := String.mk m.abi
      python_version := String.mk (m.py.take 1) ++ "." ++ String.mk (m.py.drop 1)
      platform := String.mk m.platform }

lemma firstSome_eq_some {α β : Type} {l : List α} {f : α → Option β} {b : β}
    (h : firstSome l f = some b) : ∃ x ∈ l, f x = some b := by
  induction l with
  | nil => simp [firstSome] at h
  | cons x xs ih =>
    simp only [firstSome] at h
    rcases hfx : f x with _ | b0
    · rw [hfx] at h
      obtain ⟨y, hy, hfy⟩ := ih h
      exact ⟨y, List.mem_cons_of_mem _ hy, hfy⟩
    · rw [hfx] at h
      have hb : some b0 = some b := h
      exact ⟨x, List.mem_cons_self x xs, by rw [hfx]; exact hb⟩

lemma matchCount_fst_length {p : Char → Bool} :
    ∀ {n : Nat} {s : List Char} {r : List Char × List Char},
      matchCount p n s = some r → r.1.length = n := by
  intro n
  induction n with
  | zero =>
    intro s r h
    simp only [matchCount, Option.some.injEq] at h
    rw [← h]
    rfl
  | succ n ih =>
    intro s r h
    cases s with
    | nil => simp [matchCount] at h
    | cons c cs =>
      simp only [matchCount] at h
      by_cases hp : p c
      · rw [if_pos hp] at h
        rcases hmc : matchCount p n cs with _ | r0
        · rw [hmc] at h
          simp at h
        · rw [hmc] at h
          simp only [Option.map_some', Option.some.injEq] at h
          rw [← h]
          simp [ih hmc]
      · rw [if_neg hp] at h
        simp at h

lemma matchAfterBase_py_length {base s : List Char} {m : WheelMatch}
    (h : matchAfterBase base s = some m) : m.py.length = 2 := by
  simp only [matchAfterBase, Option.bind_eq_some] at h
  obtain ⟨r1, _, h⟩ := h
  obtain ⟨rdate, _, h⟩ := h
  obtain ⟨r2, _, h⟩ := h
  obtain ⟨r3, _, h⟩ := h
  obtain ⟨rcuda, _, h⟩ := h
  obtain ⟨r4, _, h⟩ := h
  obtain ⟨rtorch, _, h⟩ := h
  obtain ⟨r5, _, h⟩ := h
  obtain ⟨rabi, _, h⟩ := h
  obtain ⟨r6, _, h⟩ := h
  obtain ⟨rhex, _, h⟩ := firstSome_eq_some h
  simp only [Option.bind_eq_some] at h
  obtain ⟨r7, _, h⟩ := h
  obtain ⟨rpy, hpy, h⟩ := h
  obtain ⟨r8, _, h⟩ := h
  obtain ⟨rmid, _, h⟩ := firstSome_eq_some h
  simp only [Option.bind_eq_some] at h
  obtain ⟨r9, _, h⟩ := h
  obtain ⟨rplat, _, h⟩ := firstSome_eq_some h
  rw [Option.map_eq_some'] at h
  obtain ⟨rfin, _, hm⟩ := h
  subst hm
  exact matchCount_fst_length hpy

lemma matchWheel_py_length {s : List Char} {m : WheelMatch}
    (h : matchWheel s = some m) : m.py.length = 2 := by
  simp only [matchWheel, Option.bind_eq_some] at h
  obtain ⟨r0, _, h⟩ := h
  obtain ⟨r1, _, h⟩ := firstSome_eq_some h
  simp only [Option.bind_eq_some] at h
  obtain ⟨d1, _, h⟩ := h
  obtain ⟨r2, _, h⟩ := firstSome_eq_some h
  simp only [Option.bind_eq_some] at h
  obtain ⟨d2, _, h⟩ := h
  obtain ⟨r3, _, h⟩ := firstSome_eq_some h
  rcases hA : (firstSome (plusSplits isAlphaC r3.2) fun r4 =>
      firstSome (starSplits isDigitC r4.2) fun r5 =>
        matchAfterBase
          (r1.1 ++ '.' :: r2.1 ++ '.' :: r3.1 ++ r4.1 ++ r5.1) r5.2)
      with _ | m'
  · rw [hA] at h
    have h' : matchAfterBase (r1.1 ++ '.' :: r2.1 ++ '.' :: r3.1) r3.2
        = some m := by
      simpa [Option.orElse] using h
    exact matchAfterBase_py_length h'
  · rw [hA] at h
    have hm : m' = m := by simpa [Option.orElse] using h
    subst hm
    obtain ⟨r4, _, hB⟩ := firstSome_eq_some hA
    obtain ⟨r5, _, hC⟩ := firstSome_eq_some hB
    exact matchAfterBase_py_length hC

/-- The spec's example wheel filename (interpreter tag `cp310`). -/
def exampleWheel310 : String :=
  "flash_attn_3-3.0.0.20250907.cu129torch280cxx11abitrue.dfb664-cp310-abi3-linux_x86_64.whl"

/-- The same wheel filename with the two-digit interpreter tag `cp39`. -/
def exampleWheel39 : String :=
  "flash_attn_3-3.0.0.20250907.cu129torch280cxx11abitrue.dfb664-cp39-abi3-linux_x86_64.whl"

/-- C1 counterexample: on the spec's example filename, whose interpreter tag
is `cp310`, `parse_wheel_info` returns `None` — the pattern requires exactly
two digits after `cp`, so the claimed captures do not exist. -/
theorem parse_wheel_info_cp310_none :
    parse_wheel_info exampleWheel310 = none := by
  decide

/-- C1 (amended): the two-digit variant `cp39` of the example parses to
CUDA "129", framework "280", interpreter "3.9", platform "linux_x86_64";
in general every successful parse displays the interpreter capture as its
first character, a dot, then the remaining (single) character. -/
theorem parse_wheel_info_example :
    parse_wheel_info exampleWheel39 = some
      { filename := exampleWheel39
        base_version := "3.0.0"
        build_date := "20250907"
        cuda_version := "129"
        torch_version := "280"
        cxx11_abi := "true"
        python_version := "3.9"
        platform := "linux_x86_64" }
    ∧ (∀ (f : String) (i : WheelInfo), parse_wheel_info f = some i →
        ∃ a b : Char,
          i.python_version = String.mk [a] ++ "." ++ String.mk [b]) := by
  constructor
  · decide
  · intro f i h
    simp only [parse_wheel_info, Option.map_eq_some'] at h
    obtain ⟨m, hmw, hi⟩ := h
    have hlen : m.py.length = 2 := matchWheel_py_length hmw
    obtain ⟨a, b, hab⟩ := List.length_eq_two.mp hlen
    refine ⟨a, b, ?_⟩
    rw [← hi]
    simp [hab]

/-- Witness for C1's amended theorem at the `cp39` example. -/
theorem parse_wheel_info_example_witness :
    ∃ i, parse_wheel_info exampleWheel39 = some i ∧
      ∃ a b : Char,
        i.python_version = String.mk [a] ++ "." ++ String.mk [b] :=
  ⟨_, parse_wheel_info_example.1,
    parse_wheel_info_example.2 exampleWheel39 _ parse_wheel_info_example.1⟩

/-! Embedding of `organize_wheels`.  A Python `dict` is an insertion-ordered
association list: updating an existing key keeps its position, a new key is
appended at the end.  The per-group `tags` set is a duplicate-free list. -/

/-- One element of a release's `assets` array, as used by the script. -/
structure Asset where
  name : String
  browser_download_url : String
  size : Nat
  created_at : String
deriving DecidableEq

/-- One release object, as used by the script. -/
structure Release where
  published_at : String
  assets : List Asset
deriving DecidableEq

/-- One entry of `organized[key]["wheels"]`. -/
structure Wheel where
  filename : String
  download_url : String
  size : Nat
  created_at : String
  python_version : String
  flash_version : String
  release_date : String
  cuda_version : String
  torch_version : String
deriving DecidableEq

/-- One value of the `organized` dictionary. -/
structure WheelGroup where
  wheels : List Wheel
  tags : List String
deriving DecidableEq

abbrev Organized := List (String × WheelGroup)

/-- Contiguous-sublist test. -/
def listInfix {α : Type} [BEq α] (needle : List α) : List α → Bool
  | [] => needle.isPrefixOf []
  | x :: tl => needle.isPrefixOf (x :: tl) || listInfix needle tl

/-- Python `"win" in platform` (substring containment). -/
def strContains (hay needle : String) : Bool :=
  listInfix needle.toList hay.toList

/-- Python `name.endswith(".whl")`. -/
def strEndsWith (s suffix : String) : Bool :=
  suffix.toList.isSuffixOf s.toList

/-- Python `s[:n]`. -/
def strTake (s : String) (n : Nat) : String :=
  String.mk (s.toList.take n)

/-- Python `s[n:]`. -/
def strDrop (s : String) (n : Nat) : String :=
  String.mk (s.toList.drop n)

/-- Dictionary lookup. -/
def dictFind : Organized → String → Option WheelGroup
  | [], _ => none
  | e :: tl, k => if e.1 == k then some e.2 else dictFind tl k

/-- Dictionary write: replace in place if the key exists, else append. -/
def dictSet : Organized → String → WheelGroup → Organized
  | [], k, v => [(k, v)]
  | e :: tl, k, v => if e.1 == k then (k, v) :: tl else e :: dictSet tl k v

/-- Python `set.add`. -/
def addTag (tags : List String) (t : String) : List String :=
  if t ∈ tags then tags else tags ++ [t]

/-- The wheel dictionary appended to `organized[key]["wheels"]`. -/
def mkWheel (info : WheelInfo) (asset : Asset) (release_date : String) :
    Wheel :=
  { filename := info.filename
    download_url := asset.browser_download_url
    size := asset.size
    created_at := asset.created_at
    python_version := info.python_version
    flash_version := info.base_version
    release_date := release_date
    cuda_version := info.cuda_version
    torch_version := info.torch_version }

/-- The group key `"cu" ++ cuda_ver ++ "_torch" ++ torch_ver`. -/
def groupKey (info : WheelInfo) : String :=
  "cu" ++ info.cuda_version ++ "_torch" ++ info.torch_version

/-- The platform-tag detection of `organize_wheels`. -/
def detectTags (tags : List String) (platform : String) : List String :=
  if strContains platform "win" then addTag tags "windows"
  else if strContains platform "aarch64" || strContains platform "arm64" then
    addTag tags "arm64"
  else tags

/-- The body of the inner asset loop of `organize_wheels`. -/
def processAsset (release_date : String) (d : Organized) (asset : Asset) :
    Organized :=
  if strEndsWith asset.name ".whl" then
    match parse_wheel_info asset.name with
    | some info =>
      dictSet d (groupKey info)
        ⟨((dictFind d (groupKey info)).getD ⟨[], []⟩).wheels
            ++ [mkWheel info asset release_date],
          detectTags ((dictFind d (groupKey info)).getD ⟨[], []⟩).tags
            info.platform⟩
    | none => d
  else d

/-- The body of the outer release loop of `organize_wheels`. -/
def orgStep (d : Organized) (r : Release) : Organized :=
  r.assets.foldl (processAsset (strTake r.published_at 10)) d

/-- Function `organize_wheels` of `generate_pages.py`. -/
def organize_wheels (releases : List Release) : Organized :=
  releases.foldl orgStep []

/-- The group key reconstructed from a stored wheel entry. -/
def wheelKey (w : Wheel) : String :=
  "cu" ++ w.cuda_version ++ "_torch" ++ w.torch_version

lemma dictFind_dictSet_self (d : Organized) (k : String) (v : WheelGroup) :
    dictFind (dictSet d k v) k = some v := by
  induction d with
  | nil => simp [dictSet, dictFind]
  | cons e tl ih =>
    by_cases he : e.1 == k
    · simp [dictSet, dictFind, he]
    · simp [dictSet, dictFind, he, ih]

lemma dictFind_dictSet_ne (d : Organized) (k k' : String) (v : WheelGroup)
    (hne : k' ≠ k) : dictFind (dictSet d k v) k' = dictFind d k' := by
  have hkk : (k == k') = false := beq_eq_false_iff_ne.mpr (Ne.symm hne)
  induction d with
  | nil => simp [dictSet, dictFind, hkk]
  | cons e tl ih =>
    by_cases he : e.1 == k
    · have he' : e.1 = k := eq_of_beq he
      simp [dictSet, dictFind, he, hkk, he']
    · by_cases he2 : e.1 == k'
      · simp [dictSet, dictFind, he, he2]
      · simp [dictSet, dictFind, he, he2, ih]

lemma dictFind_mem {d : Organized} {k : String} {g : WheelGroup}
    (h : dictFind d k = some g) : (k, g) ∈ d := by
  induction d with
  | nil => simp [dictFind] at h
  | cons e tl ih =>
    simp only [dictFind] at h
    by_cases he : e.1 == k
    · rw [if_pos he] at h
      have h1 : e.2 = g := by simpa using h
      have h2 : e.1 = k := eq_of_beq he
      refine List.mem_cons.mpr (Or.inl ?_)
      rw [← h1, ← h2]
    · rw [if_neg he] at h
      exact List.mem_cons_of_mem _ (ih h)

lemma dictFind_eq_none_iff (d : Organized) (k : String) :
    dictFind d k = none ↔ ∀ e ∈ d, e.1 ≠ k := by
  induction d with
  | nil => simp [dictFind]
  | cons e tl ih =>
    simp only [dictFind]
    by_cases he : e.1 == k
    · have he' : e.1 = k := eq_of_beq he
      simp [he, he']
    · have he' : e.1 ≠ k := ne_of_beq_false (by simpa using he)
      simp [he, he', ih]

lemma dictSet_mem {d : Organized} {k k' : String} {v g' : WheelGroup}
    (h : (k', g') ∈ dictSet d k v) : (k' = k ∧ g' = v) ∨ (k', g') ∈ d := by
  induction d with
  | nil =>
    simp only [dictSet, List.mem_singleton, Prod.mk.injEq] at h
    exact Or.inl h
  | cons e tl ih =>
    by_cases he : e.1 == k
    · simp only [dictSet, if_pos he] at h
      rcases List.mem_cons.mp h with h1 | h1
      · rw [Prod.mk.injEq] at h1
        exact Or.inl h1
      · exact Or.inr (List.mem_cons_of_mem _ h1)
    · simp only [dictSet, if_neg he] at h
      rcases List.mem_cons.mp h with h1 | h1
      · exact Or.inr (List.mem_cons.mpr (Or.inl h1))
      · rcases ih h1 with h2 | h2
        · exact Or.inl h2
        · exact Or.inr (List.mem_cons_of_mem _ h2)

lemma dictSet_keys (d : Organized) (k : String) (v : WheelGroup) :
    (dictSet d k v).map Prod.fst =
      if dictFind d k = none then d.map Prod.fst ++ [k]
      else d.map Prod.fst := by
  induction d with
  | nil => simp [dictSet, dictFind]
  | cons e tl ih =>
    by_cases he : e.1 == k
    · have he' : e.1 = k := eq_of_beq he
      simp [dictSet, dictFind, he, he']
    · by_cases hf : dictFind tl k = none
      · simp [dictSet, dictFind, he, hf, ih]
      · simp [dictSet, dictFind, he, hf, ih]

lemma dictSet_keys_nodup {d : Organized} {k : String} {v : WheelGroup}
    (hd : (d.map Prod.fst).Nodup) :
    ((dictSet d k v).map Prod.fst).Nodup := by
  rw [dictSet_keys]
  by_cases hf : dictFind d k = none
  · rw [if_pos hf]
    have hk : k ∉ d.map Prod.fst := by
      intro hk
      obtain ⟨e, he, hek⟩ := List.mem_map.mp hk
      exact (dictFind_eq_none_iff d k).mp hf e he hek
    simp [List.nodup_append, hd, hk]
  · rw [if_neg hf]
    exact hd

/-- The three invariants of the organized dictionary: distinct keys, every
wheel is filed under the key rebuilt from its own CUDA/framework captures,
and no group is empty. -/
def OrgWF (d : Organized) : Prop :=
  (d.map Prod.fst).Nodup ∧
  (∀ e ∈ d, ∀ w ∈ e.2.wheels, e.1 = wheelKey w) ∧
  (∀ e ∈ d, e.2.wheels ≠ [])

lemma processAsset_eq_skip (rd : String) (a : Asset) (d : Organized)
    (hend : strEndsWith a.name ".whl" = false) :
    processAsset rd d a = d := by
  unfold processAsset
  rw [hend]
  rfl

lemma processAsset_eq_unparsed (rd : String) (a : Asset) (d : Organized)
    (hend : strEndsWith a.name ".whl" = true)
    (hp : parse_wheel_info a.name = none) :
    processAsset rd d a = d := by
  unfold processAsset
  rw [hend, hp]
  rfl

lemma processAsset_eq_parsed (rd : String) (a : Asset) (info : WheelInfo)
    (d : Organized) (hend : strEndsWith a.name ".whl" = true)
    (hp : parse_wheel_info a.name = some info) :
    processAsset rd d a =
      dictSet d (groupKey info)
        ⟨((dictFind d (groupKey info)).getD ⟨[], []⟩).wheels
            ++ [mkWheel info a rd],
          detectTags ((dictFind d (groupKey info)).getD ⟨[], []⟩).tags
            info.platform⟩ := by
  unfold processAsset
  rw [hend, hp]
  rfl

lemma processAsset_WF {d : Organized} (rd : String) (a : Asset)
    (h : OrgWF d) : OrgWF (processAsset rd d a) := by
  rcases hend : strEndsWith a.name ".whl" with _ | _
  · rw [processAsset_eq_skip rd a d hend]
    exact h
  · rcases hp : parse_wheel_info a.name with _ | info
    · rw [processAsset_eq_unparsed rd a d hend hp]
      exact h
    · rw [processAsset_eq_parsed rd a info d hend hp]
      refine ⟨dictSet_keys_nodup h.1, ?_, ?_⟩
      · intro e he w hw
        rcases dictSet_mem he with ⟨hk, hg⟩ | hmem
        · rw [hg] at hw
          have hw' : w ∈ ((dictFind d (groupKey info)).getD ⟨[], []⟩).wheels
              ∨ w = mkWheel info a rd := by simpa using hw
          rcases hw' with h1 | h1
          · rcases hfind : dictFind d (groupKey info) with _ | g0
            · rw [hfind] at h1
              simp at h1
            · rw [hfind] at h1
              have := h.2.1 (groupKey info, g0) (dictFind_mem hfind) w h1
              rw [hk]
              exact this
          · subst h1
            rw [hk]
            rfl
        · exact h.2.1 e hmem w hw
      · intro e he
        rcases dictSet_mem he with ⟨hk, hg⟩ | hmem
        · rw [hg]
          simp
        · exact h.2.2 e hmem

lemma processAsset_mono (rd : String) (a : Asset) {d : Organized}
    {k : String} {g : WheelGroup} (h : dictFind d k = some g) :
    ∃ g', dictFind (processAsset rd d a) k = some g' ∧
      ∀ w ∈ g.wheels, w ∈ g'.wheels := by
  rcases hend : strEndsWith a.name ".whl" with _ | _
  · rw [processAsset_eq_skip rd a d hend]
    exact ⟨g, h, fun w hw => hw⟩
  · rcases hp : parse_wheel_info a.name with _ | info
    · rw [processAsset_eq_unparsed rd a d hend hp]
      exact ⟨g, h, fun w hw => hw⟩
    · rw [processAsset_eq_parsed rd a info d hend hp]
      by_cases hk : k = groupKey info
      · subst hk
        rw [h]
        refine ⟨_, dictFind_dictSet_self _ _ _, ?_⟩
        intro w hw
        simp only [Option.getD_some, List.mem_append]
        exact Or.inl hw
      · rw [dictFind_dictSet_ne _ _ _ _ hk]
        exact ⟨g, h, fun w hw => hw⟩

lemma processAsset_insert (rd : String) (a : Asset) (info : WheelInfo)
    (hend : strEndsWith a.name ".whl" = true)
    (hp : parse_wheel_info a.name = some info) (d : Organized) :
    ∃ g', dictFind (processAsset rd d a) (groupKey info) = some g' ∧
      mkWheel info a rd ∈ g'.wheels := by
  rw [processAsset_eq_parsed rd a info d hend hp]
  refine ⟨_, dictFind_dictSet_self _ _ _, ?_⟩
  simp

lemma foldl_assets_mono (rd : String) (assets : List Asset) {d : Organized}
    {k : String} {g : WheelGroup} (h : dictFind d k = some g) :
    ∃ g', dictFind (assets.foldl (processAsset rd) d) k = some g' ∧
      ∀ w ∈ g.wheels, w ∈ g'.wheels := by
  induction assets generalizing d g with
  | nil => exact ⟨g, h, fun w hw => hw⟩
  | cons a as ih =>
    obtain ⟨g1, h1, hmono1⟩ := processAsset_mono rd a h
    obtain ⟨g2, h2, hmono2⟩ := ih h1
    exact ⟨g2, h2, fun w hw => hmono2 w (hmono1 w hw)⟩

lemma foldl_releases_mono (rs : List Release) {d : Organized}
    {k : String} {g : WheelGroup} (h : dictFind d k = some g) :
    ∃ g', dictFind (rs.foldl orgStep d) k = some g' ∧
      ∀ w ∈ g.wheels, w ∈ g'.wheels := by
  induction rs generalizing d g with
  | nil => exact ⟨g, h, fun w hw => hw⟩
  | cons r rs ih =>
    obtain ⟨g1, h1, hmono1⟩ := foldl_assets_mono (strTake r.published_at 10) r.assets h
    obtain ⟨g2, h2, hmono2⟩ := ih h1
    exact ⟨g2, h2, fun w hw => hmono2 w (hmono1 w hw)⟩

lemma foldl_assets_WF (rd : String) (assets : List Asset) {d : Organized}
    (h : OrgWF d) : OrgWF (assets.foldl (processAsset rd) d) := by
  induction assets generalizing d with
  | nil => exact h
  | cons a as ih => exact ih (processAsset_WF rd a h)

lemma organize_wheels_WF (rs : List Release) : OrgWF (organize_wheels rs) := by
  have hgen : ∀ (rs : List Release) (d : Organized),
      OrgWF d → OrgWF (rs.foldl orgStep d) := by
    intro rs
    induction rs with
    | nil => intro d h; exact h
    | cons r rs ih =>
      intro d h
      exact ih _ (foldl_assets_WF _ _ h)
  exact hgen rs [] ⟨List.nodup_nil, by simp, by simp⟩

lemma foldl_assets_insert (rd : String) (assets : List Asset) {a : Asset}
    {info : WheelInfo} (ha : a ∈ assets)
    (hend : strEndsWith a.name ".whl" = true)
    (hp : parse_wheel_info a.name = some info) :
    ∀ d, ∃ g', dictFind (assets.foldl (processAsset rd) d) (groupKey info)
        = some g' ∧ mkWheel info a rd ∈ g'.wheels := by
  induction assets with
  | nil => cases ha
  | cons a0 as ih =>
    intro d
    rcases List.mem_cons.mp ha with h1 | h1
    · subst h1
      obtain ⟨g1, hg1, hw1⟩ := processAsset_insert rd a info hend hp d
      obtain ⟨g2, hg2, hmono⟩ := foldl_assets_mono rd as hg1
      exact ⟨g2, hg2, hmono _ hw1⟩
    · exact ih h1 (processAsset rd d a0)

lemma foldl_releases_insert (rs : List Release) {r : Release} {a : Asset}
    {info : WheelInfo} (hr : r ∈ rs) (ha : a ∈ r.assets)
    (hend : strEndsWith a.name ".whl" = true)
    (hp : parse_wheel_info a.name = some info) :
    ∀ d, ∃ g', dictFind (rs.foldl orgStep d) (groupKey info) = some g' ∧
      mkWheel info a (strTake r.published_at 10) ∈ g'.wheels := by
  induction rs with
  | nil => cases hr
  | cons r0 rs ih =>
    intro d
    rcases List.mem_cons.mp hr with h1 | h1
    · subst h1
      obtain ⟨g1, hg1, hw1⟩ :=
        foldl_assets_insert (strTake r.published_at 10) r.assets ha hend hp d
      obtain ⟨g2, hg2, hmono⟩ := foldl_releases_mono rs hg1
      exact ⟨g2, hg2, hmono _ hw1⟩
    · exact ih h1 (orgStep d r0)

lemma processAsset_origin {rd : String} {d : Organized} {a : Asset}
    {e : String × WheelGroup} (he : e ∈ processAsset rd d a) {w : Wheel}
    (hw : w ∈ e.2.wheels) :
    (∃ e0 ∈ d, w ∈ e0.2.wheels) ∨
      (strEndsWith a.name ".whl" = true ∧
        ∃ info, parse_wheel_info a.name = some info ∧
          w = mkWheel info a rd) := by
  rcases hend : strEndsWith a.name ".whl" with _ | _
  · rw [processAsset_eq_skip rd a d hend] at he
    exact Or.inl ⟨e, he, hw⟩
  · rcases hp : parse_wheel_info a.name with _ | info
    · rw [processAsset_eq_unparsed rd a d hend hp] at he
      exact Or.inl ⟨e, he, hw⟩
    · rw [processAsset_eq_parsed rd a info d hend hp] at he
      rcases dictSet_mem he with ⟨hk, hg⟩ | hmem
      · rw [hg] at hw
        have hw' : w ∈ ((dictFind d (groupKey info)).getD ⟨[], []⟩).wheels
            ∨ w = mkWheel info a rd := by simpa using hw
        rcases hw' with h1 | h1
        · rcases hfind : dictFind d (groupKey info) with _ | g0
          · rw [hfind] at h1
            simp at h1
          · rw [hfind] at h1
            exact Or.inl ⟨(groupKey info, g0), dictFind_mem hfind, h1⟩
        · exact Or.inr ⟨rfl, info, rfl, h1⟩
      · exact Or.inl ⟨e, hmem, hw⟩

lemma foldl_assets_origin (rd : String) (assets : List Asset) :
    ∀ {d : Organized} {e : String × WheelGroup},
      e ∈ assets.foldl (processAsset rd) d → ∀ w ∈ e.2.wheels,
        (∃ e0 ∈ d, w ∈ e0.2.wheels) ∨
          ∃ a ∈ assets, strEndsWith a.name ".whl" = true ∧
            ∃ info, parse_wheel_info a.name = some info ∧
              w = mkWheel info a rd := by
  induction assets with
  | nil =>
    intro d e he w hw
    exact Or.inl ⟨e, he, hw⟩
  | cons a as ih =>
    intro d e he w hw
    rcases ih he w hw with h1 | h1
    · obtain ⟨e0, he0, hw0⟩ := h1
      rcases processAsset_origin he0 hw0 with h2 | h2
      · exact Or.inl h2
      · exact Or.inr ⟨a, List.mem_cons_self a as, h2⟩
    · obtain ⟨a0, ha0, h2⟩ := h1
      exact Or.inr ⟨a0, List.mem_cons_of_mem _ ha0, h2⟩

lemma foldl_releases_origin (rs : List Release) :
    ∀ {d : Organized} {e : String × WheelGroup},
      e ∈ rs.foldl orgStep d → ∀ w ∈ e.2.wheels,
        (∃ e0 ∈ d, w ∈ e0.2.wheels) ∨
          ∃ r ∈ rs, ∃ a ∈ r.assets, strEndsWith a.name ".whl" = true ∧
            ∃ info, parse_wheel_info a.name = some info ∧
              w = mkWheel info a (strTake r.published_at 10) := by
  induction rs with
  | nil =>
    intro d e he w hw
    exact Or.inl ⟨e, he, hw⟩
  | cons r rs ih =>
    intro d e he w hw
    rcases ih he w hw with h1 | h1
    · obtain ⟨e0, he0, hw0⟩ := h1
      rcases foldl_assets_origin (strTake r.published_at 10) r.assets he0 w hw0
        with h2 | h2
      · exact Or.inl h2
      · obtain ⟨a, ha, h3⟩ := h2
        exact Or.inr ⟨r, List.mem_cons_self r rs, a, ha, h3⟩
    · obtain ⟨r0, hr0, h2⟩ := h1
      exact Or.inr ⟨r0, List.mem_cons_of_mem _ hr0, h2⟩

/-- C5: in the organized map the group keys are pairwise distinct, every
stored wheel sits in the group whose key is rebuilt from its own parse, and
every grammar-matching `.whl` asset lands in that (hence in exactly one)
group. -/
theorem organize_wheels_unique_group (releases : List Release) :
    ((organize_wheels releases).map Prod.fst).Nodup
    ∧ (∀ e ∈ organize_wheels releases, ∀ w ∈ e.2.wheels, e.1 = wheelKey w)
    ∧ (∀ r ∈ releases, ∀ a ∈ r.assets, strEndsWith a.name ".whl" = true →
        ∀ info, parse_wheel_info a.name = some info →
          ∃ g, dictFind (organize_wheels releases) (groupKey info) = some g ∧
            mkWheel info a (strTake r.published_at 10) ∈ g.wheels) := by
  obtain ⟨h1, h2, _⟩ := organize_wheels_WF releases
  refine ⟨h1, h2, ?_⟩
  intro r hr a ha hend info hp
  exact foldl_releases_insert releases hr ha hend hp []

/-- C6 counterexample: an asset name that does not end in `.whl` can still
match the wheel grammar (the regular expression is not anchored at the end),
so "parsing yields None" does not hold for every such name. -/
theorem non_whl_name_still_parses :
    strEndsWith
      "flash_attn_3-3.0.0.20250907.cu129torch280cxx11abitrue.dfb664-cp39-abi3-linux_x86_64.whl.sha256"
      ".whl" = false
    ∧ (parse_wheel_info
      "flash_attn_3-3.0.0.20250907.cu129torch280cxx11abitrue.dfb664-cp39-abi3-linux_x86_64.whl.sha256").isSome
      = true := by
  constructor
  · decide
  · decide

/-- C6 (amended): every wheel stored in any group comes from an asset whose
name ends in `.whl` and matches the grammar, so any other asset — one whose
name fails the grammar (parse `None`) or one filtered out by the `.whl`
suffix check (which can happen even when the grammar matches, since the
pattern is not end-anchored) — is silently omitted from every group; a
release with zero `.whl` assets contributes nothing. -/
theorem unmatched_assets_omitted (releases : List Release) :
    (∀ e ∈ organize_wheels releases, ∀ w ∈ e.2.wheels,
      ∃ r ∈ releases, ∃ a ∈ r.assets, strEndsWith a.name ".whl" = true ∧
        ∃ info, parse_wheel_info a.name = some info ∧
          w = mkWheel info a (strTake r.published_at 10))
    ∧ (∀ (rs1 rs2 : List Release) (r : Release),
        (∀ a ∈ r.assets, strEndsWith a.name ".whl" = false) →
        organize_wheels (rs1 ++ r :: rs2) = organize_wheels (rs1 ++ rs2)) := by
  constructor
  · intro e he w hw
    rcases foldl_releases_origin releases he w hw with h1 | h1
    · obtain ⟨e0, he0, _⟩ := h1
      exact absurd he0 (List.not_mem_nil e0)
    · exact h1
  · intro rs1 rs2 r hnone
    have hstep : ∀ d, orgStep d r = d := by
      intro d
      unfold orgStep
      have hgen : ∀ (as : List Asset), (∀ a ∈ as, strEndsWith a.name ".whl" = false) →
          ∀ d0 : Organized, as.foldl (processAsset (strTake r.published_at 10)) d0 = d0 := by
        intro as
        induction as with
        | nil => intro _ d0; rfl
        | cons a0 as0 ih =>
          intro hno d0
          rw [List.foldl_cons,
            processAsset_eq_skip _ a0 d0 (hno a0 (List.mem_cons_self a0 as0))]
          exact ih (fun x hx => hno x (List.mem_cons_of_mem _ hx)) d0
      exact hgen r.assets hnone d
    unfold organize_wheels
    rw [List.foldl_append, List.foldl_append, List.foldl_cons, hstep]

/-- Template segment of `generate_pages.py`. -/
def simpleA : String :=
  "<!DOCTYPE html>\n<html>\n<head>\n    <title>Flash-Attention 3 Wheels - CUDA "

/-- Template segment of `generate_pages.py`. -/
def simpleB : String :=
  ", PyTorch "

/-- Template segment of `generate_pages.py`. -/
def simpleC : String :=
  "</title>\n    <meta name=\"api-version\" value=\"2\" />\n    <script type=\"text/javascript\">\n        (function(c,l,a,r,i,t,y)\x7b\n            c[a]=c[a]||function()\x7b(c[a].q=c[a].q||[]).push(arguments)\x7d;\n            t=l.createElement(r);t.async=1;t.src=\"https://www.clarity.ms/tag/\"+i;\n            y=l.getElementsByTagName(r)[0];y.parentNode.insertBefore(t,y);\n        \x7d)(window, document, \"clarity\", \"script\", \"uy0pu9bh60\");\n    </script>\n</head>\n<body>\n    <h1>Flash-Attention 3 Wheels</h1>\n    <p>CUDA "

/-- Template segment of `generate_pages.py`. -/
def simpleD : String :=
  ", PyTorch "

/-- Template segment of `generate_pages.py`. -/
def simpleE : String :=
  "</p>\n    <p>Generated on: "

/-- Template segment of `generate_pages.py`. -/
def simpleF : String :=
  "</p>\n\n    <ul>\n"

/-- Template segment of `generate_pages.py`. -/
def simpleG : String :=
  "    </ul>\n</body>\n</html>"

/-- Template segment of `generate_pages.py`. -/
def mainA : String :=
  "<!DOCTYPE html>\n<html>\n<head>\n    <title>Flash-Attention 3 Wheels Repository</title>\n    <style>\n        body \x7b\n            font-family: -apple-system, BlinkMacSystemFont, \x27Segoe UI\x27, Roboto, Oxygen, Ubuntu, Cantarell, sans-serif;\n            margin: 24px;\n            background: #ffffff;\n            color: #1a1a1a;\n            line-height: 1.5;\n        \x7d\n        .header \x7b\n            background: #f8f9fa;\n            padding: 24px;\n            border-radius: 12px;\n            margin-bottom: 32px;\n        \x7d\n        .header h1 \x7b\n            margin: 0 0 8px 0;\n            font-size: 32px;\n            font-weight: 700;\n        \x7d\n        .header p \x7b\n            margin: 0;\n            color: #666;\n            font-size: 16px;\n        \x7d\n        .update-banner \x7b\n            background: #e8f4fd;\n            padding: 16px 20px;\n            border-radius: 8px;\n            margin: 24px 0 32px 0;\n            border-left: 4px solid #007acc;\n        \x7d\n        .update-banner h3 \x7b\n            margin: 0 0 4px 0;\n            font-size: 18px;\n            color: #007acc;\n        \x7d\n        .update-banner p \x7b\n            margin: 0;\n            font-size: 14px;\n            color: #333;\n        \x7d\n        h2 \x7b\n            font-size: 24px;\n            margin: 24px 0 16px 0;\n            font-weight: 600;\n        \x7d\n        .wheel-grid \x7b \n            display: grid;\n            grid-template-columns: repeat(auto-fill, minmax(280px, 1fr));\n            gap: 16px;\n            margin-bottom: 24px;\n            max-width: 1200px;\n        \x7d\n        .wheel-card \x7b\n            padding: 16px;\n            background: #ffffff;\n            border-radius: 10px;\n            box-shadow: 0 1px 3px rgba(0,0,0,0.1), 0 1px 2px rgba(0,0,0,0.06);\n            transition: all 0.2s;\n            display: flex;\n            flex-direction: column;\n        \x7d\n        .wheel-card:hover \x7b\n            box-shadow: 0 4px 8px rgba(0,0,0,0.12), 0 2px 4px rgba(0,0,0,0.08);\n            transform: translateY(-2px);\n        \x7d\n        .wheel-card h3 \x7b\n            margin: 0 0 8px 0;\n            font-size: 16px;\n            font-weight: 600;\n            color: #1a1a1a;\n            line-height: 1.3;\n        \x7d\n        .wheel-card .tags \x7b\n            margin-bottom: 8px;\n            min-height: 22px;\n        \x7d\n        .wheel-card .stats \x7b\n            color: #666;\n            font-size: 12px;\n            margin: 0 0 12px 0;\n            flex-grow: 1;\n        \x7d\n        .wheel-link \x7b\n            display: block;\n            text-align: center;\n            padding: 8px 12px;\n            background: #007acc;\n            color: white;\n            text-decoration: none;\n            border-radius: 8px;\n            font-size: 13px;\n            font-weight: 500;\n            transition: background-color 0.2s;\n        \x7d\n        .wheel-link:hover \x7b\n            background: #005a9a;\n        \x7d\n        .windows-badge, .arm64-badge \x7b\n            display: inline-block;\n            padding: 3px 8px;\n            border-radius: 10px;\n            font-size: 11px;\n            font-weight: 600;\n            margin-right: 6px;\n        \x7d\n        .windows-badge \x7b\n            background: linear-gradient(135deg, #007acc, #005a9a);\n            color: white;\n        \x7d\n        .arm64-badge \x7b\n            background: linear-gradient(135deg, #00c853, #009624);\n            color: white;\n        \x7d\n        details \x7b margin-top: 10px; \x7d\n        summary \x7b\n            font-size: 12px;\n            color: #666;\n            cursor: pointer;\n        \x7d\n        summary:hover \x7b color: #007acc; \x7d\n        details code \x7b\n            display: block;\n            margin-top: 6px;\n            padding: 10px;\n            font-size: 11px;\n            border-radius: 6px;\n            background: #f8f9fa;\n            border: 1px solid #e0e0e0;\n            white-space: pre-wrap;\n            word-break: break-all;\n        \x7d\n        pre \x7b margin: 10px 0; \x7d\n        code \x7b\n            background: #f8f9fa;\n            padding: 2px 5px;\n            border-radius: 4px;\n            font-family: \x27SF Mono\x27, Monaco, \x27Cascadia Code\x27, \x27Roboto Mono\x27, Consolas, \x27Courier New\x27, monospace;\n            font-size: 12px;\n        \x7d\n        ul \x7b padding-left: 20px; \x7d\n        p \x7b margin: 8px 0; \x7d\n        .copy-btn \x7b position: absolute; top: 6px; right: 6px; background: none; border: none; cursor: pointer; padding: 4px; font-size: 16px; z-index: 1; \x7d\n        .copy-btn:hover \x7b opacity: 0.7; \x7d\n    </style>\n    <script type=\"text/javascript\">\n        (function(c,l,a,r,i,t,y)\x7b\n            c[a]=c[a]||function()\x7b(c[a].q=c[a].q||[]).push(arguments)\x7d;\n            t=l.createElement(r);t.async=1;t.src=\"https://www.clarity.ms/tag/\"+i;\n            y=l.getElementsByTagName(r)[0];y.parentNode.insertBefore(t,y);\n        \x7d)(window, document, \"clarity\", \"script\", \"uy0pu9bh60\");\n    </script>\n</head>\n<body>\n    <div class=\"header\">\n        <h1>🔥 Flash-Attention 3 Wheels Repository</h1>\n        <p>Pre-built wheels for Flash-Attention 3, updated weekly</p>\n        <p>Generated on: "

/-- Template segment of `generate_pages.py`. -/
def mainB : String :=
  "</p>\n    </div>\n\n    <div class=\"update-banner\">\n        <h3>🚀 Windows Wheels Now Available!</h3>\n        <p>We\x27ve successfully built Flash Attention 3 wheels for <strong>Windows</strong> (CUDA 12 only for now).</p>\n    </div>\n\n    <h2>Installation Instructions</h2>\n    <p>Add the appropriate index URL to your pip command:</p>\n    <pre><code>pip install flash_attn_3 --find-links https://"

/-- Template segment of `generate_pages.py`. -/
def mainC : String :=
  "/PATH/TO/INDEX</code></pre>\n\n    <h2>Available Wheel Indexes</h2>\n    <div class=\"wheel-grid\">\n"

/-- Template segment of `generate_pages.py`. -/
def mainD : String :=
  "\n    </div>\n\n    <h2>Quick Reference</h2>\n    <ul>\n        <li><strong>GitHub Repository:</strong> <a href=\"https://github.com/"

/-- Template segment of `generate_pages.py`. -/
def mainE : String :=
  "\">https://github.com/"

/-- Template segment of `generate_pages.py`. -/
def mainF : String :=
  "</a></li>\n        <li><strong>Build Schedule:</strong> Weekly (Sundays at 2 AM UTC)</li>\n    </ul>\n\n    <h2>Usage Examples</h2>\n    <pre><code># Install for CUDA 12.3, PyTorch 2.4.0\npip install flash_attn_3 --find-links https://"

/-- Template segment of `generate_pages.py`. -/
def mainG : String :=
  "/cu128_torch280\n\n# Install specific version\npip install flash_attn_3==3.0.0 --find-links https://"

/-- Template segment of `generate_pages.py`. -/
def mainH : String :=
  "/cu128_torch280\n\n# Upgrade existing installation\npip install --upgrade flash_attn_3 --find-links https://"

/-- Template segment of `generate_pages.py`. -/
def mainI : String :=
  "/cu128_torch280</code></pre>\n\n    <script>\n        function copyPipCommand(button) \x7b\n            const code = button.parentElement.querySelector(\x27code\x27);\n            navigator.clipboard.writeText(code.textContent).then(() => \x7b\n                button.textContent = \x27✓\x27;\n                setTimeout(() => \x7b\n                    button.textContent = \x27📋\x27;\n                \x7d, 2000);\n            \x7d).catch(err => \x7b\n                console.error(\x27Failed to copy: \x27, err);\n                alert(\x27Copy failed, please copy manually\x27);\n            \x7d);\n        \x7d\n    </script>\n</body>\n</html>"

/-- Template segment of `generate_pages.py`. -/
def card1 : String :=
  "\n        <div class=\"wheel-card\">\n            <h3>CUDA "

/-- Template segment of `generate_pages.py`. -/
def card2 : String :=
  ", PyTorch "

/-- Template segment of `generate_pages.py`. -/
def card3 : String :=
  "</h3>\n            <div class=\"tags\">"

/-- Template segment of `generate_pages.py`. -/
def card4 : String :=
  "</div>\n            <p class=\"stats\">"

/-- Template segment of `generate_pages.py`. -/
def card5 : String :=
  " wheels available • Last updated: "

/-- Template segment of `generate_pages.py`. -/
def card6 : String :=
  "</p>\n            <a href=\""

/-- Template segment of `generate_pages.py`. -/
def card7 : String :=
  "/index.html\" class=\"wheel-link\">View Wheels</a>\n            <div class=\"pip-command\" style=\"position: relative; margin-top: 10px;\">\n                <details>\n                    <summary style=\"font-size: 12px; color: #666; cursor: pointer;\">Direct pip command</summary>\n                    <div style=\"position: relative;\">\n                        <button onclick=\"copyPipCommand(this)\" class=\"copy-btn\" title=\"Copy command\">📋</button>\n                        <code style=\"display: block; margin-top: 6px; padding: 10px; padding-right: 30px; font-size: 11px; border-radius: 6px; background: #f8f9fa; border: 1px solid #e0e0e0; white-space: pre-wrap; word-break: break-all;\">pip install flash_attn_3 --find-links https://"

/-- Template segment of `generate_pages.py`. -/
def card8 : String :=
  ".github.io/"

/-- Template segment of `generate_pages.py`. -/
def card9 : String :=
  "/"

/-- Template segment of `generate_pages.py`. -/
def card10 : String :=
  " --extra-index-url https://download.pytorch.org/whl/cu"

/-- Template segment of `generate_pages.py`. -/
def card11 : String :=
  "</code>\n                    </div>\n                </details>\n            </div>\n        </div>\n"

/-- Python `sorted(wheels, key=lambda x: x["filename"])`. -/
def pySortWheels (wheels : List Wheel) : List Wheel :=
  List.insertionSort (fun a b : Wheel => a.filename ≤ b.filename) wheels

/-- One `<li>` line of the sub-index page. -/
def liLine (w : Wheel) : String :=
  "        <li><a href=\"" ++ w.download_url ++ "\">" ++ w.filename
    ++ "</a></li>\n"

/-- Function `generate_simple_index` of `generate_pages.py`; `now` stands for the
formatted `datetime.now()` timestamp. -/
def generate_simple_index (wheels : List Wheel)
    (cuda_version torch_version now : String) : String :=
  simpleA ++ cuda_version ++ simpleB ++ torch_version ++ simpleC
    ++ cuda_version ++ simpleD ++ torch_version ++ simpleE ++ now ++ simpleF
    ++ String.join ((pySortWheels wheels).map liLine)
    ++ simpleG

/-- Python `max(iterable)` on strings: keep the current value on ties,
replace it when a later element is strictly greater. -/
def pyMaxStr (w0 : String) (l : List String) : String :=
  l.foldl (fun a b => if a < b then b else a) w0

/-- The data shown on one card of the landing page. -/
structure Card where
  key : String
  cudaver : String
  cuda_ver : String
  torch_ver : String
  tags_html : String
  wheel_count : Nat
  last_updated : String
deriving DecidableEq

/-- The per-group card computation of `generate_main_index` (the loop body);
`none` on the `if not wheels: continue` branch. -/
def mkCard (e : String × WheelGroup) : Option Card :=
  match e.2.wheels with
  | [] => none
  | w0 :: ws =>
    some { key := e.1
           cudaver := w0.cuda_version
           cuda_ver := strTake w0.cuda_version 2 ++ "."
             ++ strDrop w0.cuda_version 2
           torch_ver := strTake w0.torch_version 1 ++ "."
             ++ strTake (strDrop w0.torch_version 1) 1 ++ "."
             ++ strDrop w0.torch_version 2
           tags_html :=
             (if "windows" ∈ e.2.tags then
               "<span class=\x27windows-badge\x27>Windows Support</span>"
             else "")
             ++ (if "arm64" ∈ e.2.tags then
               "<span class=\x27arm64-badge\x27>Arm64 Support</span>"
             else "")
           wheel_count := (w0 :: ws).length
           last_updated := pyMaxStr w0.release_date
             (ws.map Wheel.release_date) }

/-- Python `sorted(organized_wheels.items(), reverse=True)` (keys are unique, so
only the key part of each pair is ever compared). -/
def sortedItems (d : Organized) : Organized :=
  List.insertionSort (fun a b : String × WheelGroup => b.1 ≤ a.1) d

/-- The card list rendered by the landing page, in rendering order. -/
def mainCards (d : Organized) : List Card :=
  (sortedItems d).filterMap mkCard

/-- One card block of the landing page. -/
def cardHtml (owner repo : String) (c : Card) : String :=
  card1 ++ c.cuda_ver ++ card2 ++ c.torch_ver ++ card3 ++ c.tags_html
    ++ card4 ++ toString c.wheel_count ++ card5 ++ c.last_updated ++ card6
    ++ c.key ++ card7 ++ owner ++ card8 ++ repo ++ card9 ++ c.key ++ card10
    ++ c.cudaver ++ card11

/-- Function `generate_main_index` of `generate_pages.py`. -/
def generate_main_index (owner repo : String) (d : Organized) (now : String) :
    String :=
  mainA ++ now ++ mainB ++ owner ++ ".github.io/" ++ repo ++ mainC
    ++ String.join ((mainCards d).map (cardHtml owner repo))
    ++ mainD ++ (owner ++ "/" ++ repo) ++ mainE ++ (owner ++ "/" ++ repo)
    ++ mainF ++ (owner ++ ".github.io/" ++ repo) ++ mainG
    ++ (owner ++ ".github.io/" ++ repo) ++ mainH
    ++ (owner ++ ".github.io/" ++ repo) ++ mainI

/-- Function `generate_all_pages` of `generate_pages.py`, as the list of written
`(path, content)` pairs: `index.html` first, then one `<key>/index.html`
per non-empty group in dictionary order.  The sub-page versions come from
`key.split("_")` (group keys always contain exactly one underscore). -/
def generate_all_pages (owner repo : String) (releases : List Release)
    (now : String) : List (String × String) :=
  ("index.html",
    generate_main_index owner repo (organize_wheels releases) now) ::
  (organize_wheels releases).filterMap fun e =>
    if e.2.wheels.isEmpty then none
    else
      some (e.1 ++ "/index.html",
        generate_simple_index e.2.wheels
          (String.mk ((GenerateMatrix.splitChar '_' e.1.toList).getD 0 []))
          (String.mk ((GenerateMatrix.splitChar '_' e.1.toList).getD 1 []))
          now)

instance : IsTotal Wheel (fun a b => a.filename ≤ b.filename) :=
  ⟨fun a b => le_total a.filename b.filename⟩

instance : IsTrans Wheel (fun a b => a.filename ≤ b.filename) :=
  ⟨fun _ _ _ h1 h2 => le_trans h1 h2⟩

instance : IsTotal (String × WheelGroup) (fun a b => b.1 ≤ a.1) :=
  ⟨fun a b => le_total b.1 a.1⟩

instance : IsTrans (String × WheelGroup) (fun a b => b.1 ≤ a.1) :=
  ⟨fun _ _ _ h1 h2 => le_trans h2 h1⟩

lemma pyMaxStr_spec (l : List String) :
    ∀ w0 : String, pyMaxStr w0 l ∈ w0 :: l ∧
      ∀ x ∈ w0 :: l, x ≤ pyMaxStr w0 l := by
  induction l with
  | nil =>
    intro w0
    constructor
    · exact List.mem_cons_self _ _
    · intro x hx
      rcases List.mem_cons.mp hx with h1 | h1
      · subst h1; exact le_refl _
      · exact absurd h1 (List.not_mem_nil x)
  | cons b l ih =>
    intro w0
    by_cases hwb : w0 < b
    · have heq : pyMaxStr w0 (b :: l) = pyMaxStr b l := by
        have h0 : pyMaxStr w0 (b :: l)
            = pyMaxStr (if w0 < b then b else w0) l := rfl
        rw [h0, if_pos hwb]
      obtain ⟨hmem, hub⟩ := ih b
      constructor
      · rw [heq]
        rcases List.mem_cons.mp hmem with h1 | h1
        · rw [h1]
          exact List.mem_cons_of_mem _ (List.mem_cons_self _ _)
        · exact List.mem_cons_of_mem _ (List.mem_cons_of_mem _ h1)
      · intro x hx
        rw [heq]
        rcases List.mem_cons.mp hx with h1 | h1
        · subst h1
          exact le_trans (le_of_lt hwb) (hub b (List.mem_cons_self _ _))
        · exact hub x h1
    · have heq : pyMaxStr w0 (b :: l) = pyMaxStr w0 l := by
        have h0 : pyMaxStr w0 (b :: l)
            = pyMaxStr (if w0 < b then b else w0) l := rfl
        rw [h0, if_neg hwb]
      obtain ⟨hmem, hub⟩ := ih w0
      constructor
      · rw [heq]
        rcases List.mem_cons.mp hmem with h1 | h1
        · rw [h1]
          exact List.mem_cons_self _ _
        · exact List.mem_cons_of_mem _ (List.mem_cons_of_mem _ h1)
      · intro x hx
        rw [heq]
        rcases List.mem_cons.mp hx with h1 | h1
        · subst h1
          exact hub x (List.mem_cons_self _ _)
        · rcases List.mem_cons.mp h1 with h2 | h2
          · subst h2
            exact le_trans (le_of_not_lt hwb) (hub w0 (List.mem_cons_self _ _))
          · exact hub x (List.mem_cons_of_mem _ h2)

lemma mkCard_key {e : String × WheelGroup} {c : Card}
    (h : mkCard e = some c) : c.key = e.1 := by
  rcases hw : e.2.wheels with _ | ⟨w0, ws⟩
  · simp only [mkCard] at h
    rw [hw] at h
    exact absurd h (by simp)
  · simp only [mkCard] at h
    rw [hw] at h
    simp only [Option.some.injEq] at h
    rw [← h]

lemma mkCard_spec {e : String × WheelGroup} {c : Card}
    (h : mkCard e = some c) :
    e.2.wheels ≠ [] ∧ c.wheel_count = e.2.wheels.length ∧
      c.last_updated ∈ e.2.wheels.map Wheel.release_date ∧
      ∀ x ∈ e.2.wheels.map Wheel.release_date, x ≤ c.last_updated := by
  rcases hw : e.2.wheels with _ | ⟨w0, ws⟩
  · simp only [mkCard] at h
    rw [hw] at h
    exact absurd h (by simp)
  · simp only [mkCard] at h
    rw [hw] at h
    simp only [Option.some.injEq] at h
    subst h
    obtain ⟨hmem, hub⟩ := pyMaxStr_spec (ws.map Wheel.release_date)
      w0.release_date
    refine ⟨by simp, by simp, ?_, ?_⟩
    · rw [List.map_cons]
      exact hmem
    · intro x hx
      rw [List.map_cons] at hx
      exact hub x hx

lemma mainCards_sorted (d : Organized) :
    List.Sorted (fun a b : String => b ≤ a) ((mainCards d).map Card.key) := by
  have hs : List.Sorted (fun a b : String × WheelGroup => b.1 ≤ a.1)
      (sortedItems d) := List.sorted_insertionSort _ _
  unfold mainCards
  rw [List.Sorted, List.pairwise_map, List.pairwise_filterMap]
  refine List.Pairwise.imp ?_ hs
  intro a b hab c hc c' hc'
  have h1 : mkCard a = some c := hc
  have h2 : mkCard b = some c' := hc'
  rw [mkCard_key h1, mkCard_key h2]
  exact hab

/-- C7: the landing page lists one card per non-empty group, in reverse
(descending) key order; a card's wheel count is the length of its group's
wheel list and its "last updated" value is the maximum of the group's
release-date strings under string comparison. -/
theorem main_index_cards_correct (d : Organized) :
    List.Sorted (fun a b : String => b ≤ a) ((mainCards d).map Card.key)
    ∧ (∀ c ∈ mainCards d, ∃ g, (c.key, g) ∈ d ∧ g.wheels ≠ [] ∧
        c.wheel_count = g.wheels.length ∧
        c.last_updated ∈ g.wheels.map Wheel.release_date ∧
        ∀ x ∈ g.wheels.map Wheel.release_date, x ≤ c.last_updated)
    ∧ (∀ e ∈ d, e.2.wheels ≠ [] → ∃ c ∈ mainCards d, c.key = e.1) := by
  refine ⟨mainCards_sorted d, ?_, ?_⟩
  · intro c hc
    obtain ⟨e, he, hmk⟩ := List.mem_filterMap.mp hc
    have hed : e ∈ d := (List.perm_insertionSort _ d).subset he
    obtain ⟨hne, hcount, hmem, hub⟩ := mkCard_spec hmk
    refine ⟨e.2, ?_, hne, hcount, hmem, hub⟩
    rw [mkCard_key hmk]
    exact hed
  · intro e he hne
    have hes : e ∈ sortedItems d :=
      (List.perm_insertionSort _ d).symm.subset he
    rcases hw : e.2.wheels with _ | ⟨w0, ws⟩
    · exact absurd hw hne
    · have hmk : ∃ c, mkCard e = some c := by
        simp only [mkCard]
        rw [hw]
        exact ⟨_, rfl⟩
      obtain ⟨c, hc⟩ := hmk
      exact ⟨c, List.mem_filterMap.mpr ⟨e, hes, hc⟩, mkCard_key hc⟩

/-- Witness data: one wheel, one group, one-entry organized map. -/
def wEx : Wheel :=
  ⟨"f.whl", "https://example.invalid/f.whl", 1, "2025-09-07T00:00:00Z",
    "3.9", "3.0.0", "2025-09-07", "129", "280"⟩

def gEx : WheelGroup := ⟨[wEx], ["windows"]⟩

def dEx : Organized := [("cu129_torch280", gEx)]

def cardEx : Card :=
  ⟨"cu129_torch280", "129", "12.9", "2.8.0",
    "<span class=\x27windows-badge\x27>Windows Support</span>", 1,
    "2025-09-07"⟩

/-- Witness for C7 on the one-group example map. -/
theorem main_index_cards_correct_witness :
    ∃ g, (cardEx.key, g) ∈ dEx ∧ g.wheels ≠ [] ∧
      cardEx.wheel_count = g.wheels.length ∧
      cardEx.last_updated ∈ g.wheels.map Wheel.release_date ∧
      ∀ x ∈ g.wheels.map Wheel.release_date, x ≤ cardEx.last_updated :=
  (main_index_cards_correct dEx).2.1 cardEx (by decide)

/-- C8: the sub-index body lists the group's wheels sorted alphabetically by
filename, each rendered as an anchor tag to its download URL. -/
theorem simple_index_sorted_anchors (wheels : List Wheel)
    (cuda_version torch_version now : String) :
    ∃ ws : List Wheel, wheels.Perm ws ∧
      List.Sorted (fun a b : String => a ≤ b) (ws.map Wheel.filename) ∧
      generate_simple_index wheels cuda_version torch_version now =
        simpleA ++ cuda_version ++ simpleB ++ torch_version ++ simpleC
          ++ cuda_version ++ simpleD ++ torch_version ++ simpleE ++ now
          ++ simpleF ++ String.join (ws.map liLine) ++ simpleG
    ∧ ∀ w : Wheel, liLine w =
        "        <li><a href=\"" ++ w.download_url ++ "\">" ++ w.filename
          ++ "</a></li>\n" := by
  refine ⟨pySortWheels wheels, (List.perm_insertionSort _ _).symm, ?_, rfl,
    fun w => rfl⟩
  have hs := List.sorted_insertionSort
    (fun a b : Wheel => a.filename ≤ b.filename) wheels
  exact List.pairwise_map.mpr hs

/-- Everything on every generated page except the one embedded timestamp:
for each page, its path, the content before the timestamp, and the content
after it. -/
def pageSkeleton (owner repo : String) (releases : List Release) :
    List (String × String × String) :=
  ("index.html", mainA,
    mainB ++ owner ++ ".github.io/" ++ repo ++ mainC
      ++ String.join
        ((mainCards (organize_wheels releases)).map (cardHtml owner repo))
      ++ mainD ++ (owner ++ "/" ++ repo) ++ mainE ++ (owner ++ "/" ++ repo)
      ++ mainF ++ (owner ++ ".github.io/" ++ repo) ++ mainG
      ++ (owner ++ ".github.io/" ++ repo) ++ mainH
      ++ (owner ++ ".github.io/" ++ repo) ++ mainI) ::
  (organize_wheels releases).filterMap fun e =>
    if e.2.wheels.isEmpty then none
    else
      some (e.1 ++ "/index.html",
        simpleA
          ++ (String.mk ((GenerateMatrix.splitChar '_' e.1.toList).getD 0 []))
          ++ simpleB
          ++ (String.mk ((GenerateMatrix.splitChar '_' e.1.toList).getD 1 []))
          ++ simpleC
          ++ (String.mk ((GenerateMatrix.splitChar '_' e.1.toList).getD 0 []))
          ++ simpleD
          ++ (String.mk ((GenerateMatrix.splitChar '_' e.1.toList).getD 1 []))
          ++ simpleE,
        simpleF ++ String.join ((pySortWheels e.2.wheels).map liLine)
          ++ simpleG)

lemma generate_all_pages_eq (owner repo : String) (releases : List Release)
    (now : String) :
    generate_all_pages owner repo releases now
      = (pageSkeleton owner repo releases).map
          (fun s => (s.1, s.2.1 ++ now ++ s.2.2)) := by
  unfold generate_all_pages pageSkeleton generate_main_index
    generate_simple_index
  rw [List.map_cons, List.cons.injEq]
  constructor
  · rw [Prod.mk.injEq]
    refine ⟨rfl, ?_⟩
    simp only [String.append_assoc]
  · rw [List.map_filterMap]
    apply List.filterMap_congr
    intro e _
    rcases hw : e.2.wheels with _ | ⟨w0, ws⟩
    · rfl
    · simp only [List.isEmpty_cons, Bool.false_eq_true, ite_false,
        Option.map_some', Option.some.injEq, Prod.mk.injEq,
        String.append_assoc, true_and]

lemma forall₂_map_map {α β γ : Type} (R : β → γ → Prop) (f : α → β)
    (g : α → γ) (l : List α) (h : ∀ a ∈ l, R (f a) (g a)) :
    List.Forall₂ R (l.map f) (l.map g) := by
  induction l with
  | nil => exact List.Forall₂.nil
  | cons x xs ih =>
    exact List.Forall₂.cons (h x (List.mem_cons_self x xs))
      (ih fun a ha => h a (List.mem_cons_of_mem _ ha))

/-- C9: two runs of the page generator over identical release data produce
pagewise-aligned output — same paths, and each page's content differs only
in the embedded generation timestamp. -/
theorem pages_two_runs_differ_only_in_timestamp (owner repo : String)
    (releases : List Release) (now1 now2 : String) :
    List.Forall₂ (fun p q : String × String =>
        p.1 = q.1 ∧ ∃ pre post : String,
          p.2 = pre ++ now1 ++ post ∧ q.2 = pre ++ now2 ++ post)
      (generate_all_pages owner repo releases now1)
      (generate_all_pages owner repo releases now2) := by
  rw [generate_all_pages_eq, generate_all_pages_eq]
  apply forall₂_map_map
  intro s _
  exact ⟨rfl, s.2.1, s.2.2, rfl, rfl⟩

/-- C10: every group produced by `organize_wheels` has a non-empty wheel
list, so the empty-group skip branches are never taken: the filter is the
identity and every group gets a sub-index page. -/
theorem organize_groups_nonempty (releases : List Release) :
    (∀ e ∈ organize_wheels releases, e.2.wheels ≠ [])
    ∧ ((organize_wheels releases).filter (fun e => !e.2.wheels.isEmpty)
        = organize_wheels releases)
    ∧ (∀ owner repo now : String,
        (generate_all_pages owner repo releases now).length
          = 1 + (organize_wheels releases).length) := by
  have h := (organize_wheels_WF releases).2.2
  have hfalse : ∀ e ∈ organize_wheels releases,
      e.2.wheels.isEmpty = false := by
    intro e he
    rcases hw : e.2.wheels with _ | _
    · exact absurd hw (h e he)
    · rfl
  refine ⟨h, ?_, ?_⟩
  · rw [List.filter_eq_self]
    intro e he
    rw [hfalse e he]
    rfl
  · intro owner repo now
    have hlen : ∀ (l : List (String × WheelGroup))
        (f : String × WheelGroup → String × String),
        (∀ e ∈ l, e.2.wheels.isEmpty = false) →
        (l.filterMap (fun e =>
          if e.2.wheels.isEmpty then none else some (f e))).length
          = l.length := by
      intro l f
      induction l with
      | nil => intro _; rfl
      | cons e tl ih =>
        intro hl
        have hce : (if e.2.wheels.isEmpty then none else some (f e))
            = some (f e) := by
          rw [hl e (List.mem_cons_self e tl)]
          rfl
        rw [List.filterMap_cons, hce]
        change (f e :: tl.filterMap
          (fun x => if x.2.wheels.isEmpty then none else some (f x))).length
          = tl.length + 1
        rw [List.length_cons, ih fun x hx => hl x (List.mem_cons_of_mem _ hx)]
    unfold generate_all_pages
    rw [List.length_cons, hlen _ _ hfalse]
    omega

/-- Witness for C10 on a singleton release. -/
theorem organize_groups_nonempty_witness :
    (generate_all_pages "owner" "repo"
        [⟨"2025-09-07T01:02:03Z",
          [⟨exampleWheel39, "https://example.invalid/f.whl", 7,
            "2025-09-07T00:00:00Z"⟩]⟩] "now").length
      = 1 + (organize_wheels
        [⟨"2025-09-07T01:02:03Z",
          [⟨exampleWheel39, "https://example.invalid/f.whl", 7,
            "2025-09-07T00:00:00Z"⟩]⟩]).length :=
  (organize_groups_nonempty _).2.2 "owner" "repo" "now"

/-- Parse result of `exampleWheel39`, spelled out. -/
def exampleInfo : WheelInfo :=
  { filename := exampleWheel39
    base_version := "3.0.0"
    build_date := "20250907"
    cuda_version := "129"
    torch_version := "280"
    cxx11_abi := "true"
    python_version := "3.9"
    platform := "linux_x86_64" }

def exampleAsset : Asset :=
  ⟨exampleWheel39, "https://example.invalid/f.whl", 7,
    "2025-09-07T00:00:00Z"⟩

def exampleRelease : Release := ⟨"2025-09-07T01:02:03Z", [exampleAsset]⟩

/-- Witness for C5 on a singleton release. -/
theorem organize_wheels_unique_group_witness :
    ∃ g, dictFind (organize_wheels [exampleRelease]) (groupKey exampleInfo)
        = some g ∧
      mkWheel exampleInfo exampleAsset (strTake exampleRelease.published_at 10)
        ∈ g.wheels :=
  (organize_wheels_unique_group [exampleRelease]).2.2 exampleRelease
    (by decide) exampleAsset (by decide) (by decide) exampleInfo (by decide)

/-- Witness for C8 at a one-wheel list. -/
theorem simple_index_sorted_anchors_witness :
    ∃ ws : List Wheel, [wEx].Perm ws ∧
      List.Sorted (fun a b : String => a ≤ b) (ws.map Wheel.filename) ∧
      generate_simple_index [wEx] "cu129" "torch280" "now" =
        simpleA ++ "cu129" ++ simpleB ++ "torch280" ++ simpleC ++ "cu129"
          ++ simpleD ++ "torch280" ++ simpleE ++ "now" ++ simpleF
          ++ String.join (ws.map liLine) ++ simpleG
    ∧ ∀ w : Wheel, liLine w =
        "        <li><a href=\"" ++ w.download_url ++ "\">" ++ w.filename
          ++ "</a></li>\n" :=
  simple_index_sorted_anchors [wEx] "cu129" "torch280" "now"

/-- Witness for C9 at the empty release list and two timestamps. -/
theorem pages_two_runs_witness :
    List.Forall₂ (fun p q : String × String =>
        p.1 = q.1 ∧ ∃ pre post : String,
          p.2 = pre ++ "t1" ++ post ∧ q.2 = pre ++ "t2" ++ post)
      (generate_all_pages "o" "r" [] "t1")
      (generate_all_pages "o" "r" [] "t2") :=
  pages_two_runs_differ_only_in_timestamp "o" "r" [] "t1" "t2"

def exampleNoWhl : Release :=
  ⟨"2025-01-01T00:00:00Z", [⟨"README.md", "u", 0, "c"⟩]⟩

/-- Witness for C6: a release whose only asset is not a wheel contributes
nothing. -/
theorem unmatched_assets_omitted_witness :
    organize_wheels [exampleNoWhl] = organize_wheels [] :=
  (unmatched_assets_omitted []).2 [] [] exampleNoWhl (by decide)

end GeneratePages
